import Mathlib

/-!
Verification development for the ToaruOS experimental shell (`apps/sh.c`).

The development shallowly embeds the core of `shell_exec`:
* the character-level lexer (the big `switch` over `*p`, sh.c lines 486-682),
* the token walk that plans pipelines, redirections and glob expansion
  (sh.c lines 684-808), and
* the process-execution phase (builtin dispatch, fork spawning, the reap
  loop; sh.c lines 810-876 together with `runCmd`, lines 427-443).

Sentinel byte sequences (`PIPE_TOKEN`, `WRITE_TOKEN`, `STAR_TOKEN`) that the C
code embeds in word text are modelled as dedicated constructors of `SChar`;
the shell never produces them from user bytes except by `\xFF` collision,
which the model excludes by construction.

OS-level behaviour (fork/execvp/waitpid) is not C code in this repository's
`src/`; it is modelled from the spec: a forked child runs on a copy of the
shell state which is discarded, `execvp` outcomes come from an oracle mapping
program names to the wait status their process eventually delivers, and the
reap loop consumes wait statuses in an arbitrary OS-chosen order.
-/

namespace Esh

/-! ## Characters, words and tokens -/

/-- A character of a collected argument.  `ch` is an ordinary byte; `star`
is the embedded `STAR_TOKEN` wildcard marker; `pipeS` and `writeS` are the
`PIPE_TOKEN` / `WRITE_TOKEN` sentinels that only ever occur as whole
stand-alone arguments. -/
inductive SChar where
  | ch (c : Char)
  | star
  | pipeS
  | writeS
deriving DecidableEq

/-- An argument as accumulated by the lexer (one cell of the C `args` list). -/
abbrev Arg := List SChar

/-- The stand-alone `PIPE_TOKEN` argument (sh.c line 614). -/
def pipeArg : Arg := [SChar.pipeS]

/-- The stand-alone `WRITE_TOKEN` argument (sh.c line 623). -/
def writeArg : Arg := [SChar.writeS]

/-- Build a plain word argument from a string (every byte ordinary). -/
def wArg (s : String) : Arg := s.data.map SChar.ch

/-- Rendering of a model character back to the byte the planner compares
with.  `star` renders as the literal `*` that the fallback paths restore;
the pipe/write sentinels never occur inside words produced by the lexer. -/
def renderC : SChar → Char
  | SChar.ch c => c
  | SChar.star => '*'
  | SChar.pipeS => '|'
  | SChar.writeS => '>'

/-! ## Lexer (sh.c lines 418-425 and 486-682) -/

/-- `variable_char` (sh.c lines 418-425): name characters for `$` expansion.
Note that `?` is accepted, exactly as in the source. -/
def variable_char (c : Char) : Bool :=
  (('A' ≤ c && c ≤ 'Z') || ('a' ≤ c && c ≤ 'z') ||
   ('0' ≤ c && c ≤ '9') || c == '_' || c == '?')

/-- `isdigit` over the ASCII digits, as used by the source. -/
def isdigitC (c : Char) : Bool := '0' ≤ c && c ≤ '9'

/-- `is_number` (sh.c lines 445-451).  The empty string counts as a number,
because the C loop body never runs. -/
def is_number (s : List Char) : Bool := s.all isdigitC

/-- `atoi` restricted to the all-digit strings `is_number` accepts. -/
def atoiNat (s : List Char) : Nat :=
  s.foldl (fun n c => n * 10 + (c.toNat - '0'.toNat)) 0

/-- Environment of one `shell_exec` invocation: `last_ret`, the positional
arguments `shell_argv` (with `shell_argc = shell_argv.length`), and the
process environment consulted by `getenv`. -/
structure LexEnv where
  lastRet : Int
  shellArgv : List String
  envv : List (String × String)

/-- `getenv`, modelled as first-match lookup in the environment list. -/
def getenvE (E : LexEnv) (n : String) : Option String :=
  (E.envv.find? (fun e => e.1 == n)).map (·.2)

/-- Collection loop for a bare `$NAME` (sh.c lines 514-524): read while
`variable_char` holds and fewer than 100 characters were collected.  The
source contains a guard `if (coll == 0 && (isdigit(*p) || *p == '?'))`
intended to stop after a single `?` or digit, but it is tested after
`coll++`, so `coll + 1 = 0` never holds; the dead branch is carried over
verbatim. -/
def collect_bare : List Char → List Char → Nat → List Char × List Char
  | [], acc, _ => (acc, [])
  | c :: rest, acc, coll =>
    if variable_char c && decide (coll < 100) then
      if coll + 1 = 0 && (isdigitC c || c == '?') then (acc ++ [c], rest)
      else collect_bare rest (acc ++ [c]) (coll + 1)
    else (acc, c :: rest)

/-- Collection loop for `${NAME}` (sh.c lines 503-512): read until `}` or
end of input, capped at 100 characters; a closing `}` is consumed. -/
def collect_brace : List Char → List Char → Nat → List Char × List Char
  | [], acc, _ => (acc, [])
  | c :: rest, acc, coll =>
    if c ≠ '}' ∧ coll < 100 then collect_brace rest (acc ++ [c]) (coll + 1)
    else if c = '}' then (acc, rest)
    else (acc, c :: rest)

/-- Variable resolution (sh.c lines 525-538): the exact form `?` yields
`last_ret`, an all-digit name yields the positional argument when in range,
anything else is an environment lookup.  When the collection loop collected
nothing the C code reads an uninitialised buffer; the model uses the empty
name, the only deterministic reading. -/
def resolveVar (E : LexEnv) (var : List Char) : Option String :=
  if var = ['?'] then some (toString E.lastRet)
  else if is_number var then
    let a := atoiNat var
    if a < E.shellArgv.length then E.shellArgv.get? a else none
  else getenvE E (String.mk var)

/-- Lexer state: `quoted` is the C `char quoted` (0, `'`, or `"`),
`backtick` the escape-pending flag, `buf` the in-progress word `buffer_`
(`collected ≠ 0` iff `buf ≠ []`), `have_star` the per-token wildcard limit,
and `argsRev` the argument list built so far, newest first. -/
structure LexSt where
  quoted : Option Char
  backtick : Bool
  buf : Arg
  have_star : Bool
  argsRev : List Arg
deriving DecidableEq

/-- The label `_just_add` (sh.c lines 638-643): clear the escape flag and
append the character to the in-progress word. -/
def justAddC (c : Char) (st : LexSt) : LexSt :=
  { st with backtick := false, buf := st.buf ++ [SChar.ch c] }

/-- The label `_new_arg` (sh.c lines 646-653): clear the escape flag and,
if a word is in progress, emit it and reset the word state. -/
def newArg (st : LexSt) : LexSt :=
  if st.buf ≠ [] then
    { st with
      backtick := false
      argsRev := st.buf :: st.argsRev
      buf := []
      have_star := false }
  else { st with backtick := false }

/-- Append the expansion of a collected variable name to the in-progress
word (sh.c lines 540-547); an unresolved name appends nothing. -/
def substApply (E : LexEnv) (var : List Char) (st : LexSt) : LexSt :=
  match resolveVar E var with
  | some s => { st with backtick := false, buf := st.buf ++ s.data.map SChar.ch }
  | none => st

/-- The label `_done` (sh.c lines 659-682) for a single physical line: an
open quote requests continuation (`none`); otherwise a pending word is
emitted and the argument list is returned. -/
def lexDone (st : LexSt) : Option (List Arg) :=
  if st.quoted ≠ none then none
  else if st.buf ≠ [] then some ((st.buf :: st.argsRev).reverse)
  else some st.argsRev.reverse

/-- One iteration of the character loop: the `switch (*p)` of sh.c lines
490-644.  Returns either the remaining input and successor state, or an
early final result (`_done` via `\n` or a comment). -/
def lexStep (E : LexEnv) (c : Char) (rest : List Char) (st : LexSt) :
    (List Char × LexSt) ⊕ Option (List Arg) :=
  if c = '$' then
    if st.quoted = some '\'' then Sum.inl (rest, justAddC c st)
    else if st.backtick then Sum.inl (rest, justAddC c st)
    else
      match rest with
      | '{' :: r2 =>
        let pr := collect_brace r2 [] 0
        Sum.inl (pr.2, substApply E pr.1 st)
      | _ =>
        let pr := collect_bare rest [] 0
        Sum.inl (pr.2, substApply E pr.1 st)
  else if c = '"' then
    if st.quoted = some '"' then
      if st.backtick then Sum.inl (rest, justAddC c st)
      else Sum.inl (rest, { st with quoted := none })
    else if st.quoted = none then Sum.inl (rest, { st with quoted := some '"' })
    else Sum.inl (rest, justAddC c st)
  else if c = '\'' then
    if st.quoted = some '\'' then
      if st.backtick then Sum.inl (rest, justAddC c st)
      else Sum.inl (rest, { st with quoted := none })
    else if st.quoted = none then Sum.inl (rest, { st with quoted := some '\'' })
    else Sum.inl (rest, justAddC c st)
  else if c = '*' then
    if st.quoted ≠ none then Sum.inl (rest, justAddC c st)
    else if st.backtick then Sum.inl (rest, justAddC c st)
    else if st.have_star then Sum.inl (rest, justAddC c st)
    else Sum.inl (rest, { st with have_star := true, buf := st.buf ++ [SChar.star] })
  else if c = '\\' then
    if st.quoted = some '\'' then Sum.inl (rest, justAddC c st)
    else if st.backtick then Sum.inl (rest, justAddC c st)
    else Sum.inl (rest, { st with backtick := true })
  else if c = ' ' then
    if st.backtick then Sum.inl (rest, justAddC c st)
    else if st.quoted = none then Sum.inl (rest, newArg st)
    else Sum.inl (rest, justAddC c st)
  else if c = '\n' then
    if st.quoted = none then Sum.inr (lexDone st)
    else Sum.inl (rest, justAddC c st)
  else if c = '|' then
    if st.quoted = none ∧ st.backtick = false then
      Sum.inl (rest, newArg { st with
        argsRev := if st.buf ≠ [] then st.buf :: st.argsRev else st.argsRev,
        buf := pipeArg })
    else Sum.inl (rest, justAddC c st)
  else if c = '>' then
    if st.quoted = none ∧ st.backtick = false then
      Sum.inl (rest, newArg { st with
        argsRev := if st.buf ≠ [] then st.buf :: st.argsRev else st.argsRev,
        buf := writeArg })
    else Sum.inl (rest, justAddC c st)
  else if c = '#' then
    if st.quoted = none ∧ st.backtick = false ∧ st.buf = [] then Sum.inr (lexDone st)
    else Sum.inl (rest, justAddC c st)
  else
    if st.backtick then
      Sum.inl (rest, justAddC c { st with buf := st.buf ++ [SChar.ch '\\'] })
    else Sum.inl (rest, justAddC c st)

/-- The `while (*p)` loop.  Fuel decreases by one per iteration while each
iteration consumes at least one input character, so `length + 1` fuel never
runs out; the fuel-exhausted arm is unreachable for `tokenize`. -/
def lexLoop (E : LexEnv) : Nat → List Char → LexSt → Option (List Arg)
  | _, [], st => lexDone st
  | 0, _ :: _, _ => none
  | fuel + 1, c :: rest, st =>
    match lexStep E c rest st with
    | Sum.inl (rest2, st2) => lexLoop E fuel rest2 st2
    | Sum.inr r => r

/-- Initial lexer state of one `shell_exec` call. -/
def initLexSt : LexSt := ⟨none, false, [], false, []⟩

/-- `tokenize` of one physical line: `none` means an open quote requested a
continuation line. -/
def tokenize (E : LexEnv) (line : List Char) : Option (List Arg) :=
  lexLoop E (line.length + 1) line initLexSt

/-! ## Pipeline planning and glob expansion (sh.c lines 684-808) -/

/-- Open mode recorded in `file_args` for an output redirection:
`trunc` is `O_WRONLY | O_CREAT | O_TRUNC` (sh.c line 707), `append` is
`O_WRONLY | O_CREAT | O_APPEND` (sh.c line 698). -/
inductive OpenMode where
  | trunc
  | append
deriving DecidableEq

/-- Split an argument at its first embedded `STAR_TOKEN`
(`strstr(c, STAR_TOKEN)`, sh.c line 719). -/
def splitStar : Arg → Option (Arg × Arg)
  | [] => none
  | SChar.star :: rest => some ([], rest)
  | c :: rest =>
    match splitStar rest with
    | some (b, a) => some (c :: b, a)
    | none => none

/-- One directory entry surviving the glob filter (sh.c lines 736-763):
hidden entries are skipped, a non-empty prefix must be an initial segment
(`strstr(s, before) == s`), and a non-empty suffix must match the final
characters of the remainder `t = &s[strlen(before)]`, guarded by
`strlen(t) >= strlen(after)`. -/
def globEntryKeep (bs afs s : List Char) : Bool :=
  if s.head? = some '.' then false
  else if bs ≠ [] ∧ bs.isPrefixOf s = false then false
  else
    let t := if bs ≠ [] then s.drop bs.length else s
    if afs ≠ [] then
      if afs.length ≤ t.length then t.drop (t.length - afs.length) == afs
      else false
    else true

/-- All surviving entries of the current directory, in enumeration order. -/
def globMatches (dir : List String) (bs afs : List Char) : List String :=
  dir.filter (fun s => globEntryKeep bs afs s.data)

/-- Planner state for the `foreach(node, args)` walk (sh.c lines 684-691):
`cmdi` the current stage index, `stagesRev` the closed stages, `cur` the
stage under construction, `outFiles`/`fileArgs` the per-stage redirection
records (newest binding first, mirroring overwrites of
`output_files[cmdi]`/`file_args[cmdi]`), and `nextIsFile` the 0/1/2 flag. -/
structure PlanSt where
  cmdi : Nat
  stagesRev : List (List String)
  cur : List String
  outFiles : List (Nat × Arg)
  fileArgs : List (Nat × OpenMode)
  nextIsFile : Nat

/-- Initial planner state. -/
def initPlanSt : PlanSt := ⟨0, [], [], [], [], 0⟩

/-- The body of the token walk (sh.c lines 692-791), one argument at a
time.  Note that `nextIsFile` is never reset once set, exactly as in the
source, and that the directory-qualified glob fallback (sh.c lines
779-785) restores `*` without the `memmove` of the no-match branch, so the
text after the marker is lost. -/
def planStep (dir : List String) (st : PlanSt) (c : Arg) : PlanSt :=
  if st.nextIsFile ≠ 0 then
    if st.nextIsFile = 1 ∧ c = writeArg then
      { st with
        nextIsFile := 2
        fileArgs := (st.cmdi, OpenMode.append) :: st.fileArgs }
    else { st with outFiles := (st.cmdi, c) :: st.outFiles }
  else if c = writeArg then
    { st with
      nextIsFile := 1
      fileArgs := (st.cmdi, OpenMode.trunc) :: st.fileArgs }
  else if c = pipeArg then
    { st with cmdi := st.cmdi + 1, stagesRev := st.cur :: st.stagesRev, cur := [] }
  else
    match splitStar c with
    | some (bef, aft) =>
      let bs := bef.map renderC
      let afs := aft.map renderC
      if bs = [] ∨ bs.contains '/' = false then
        let ms := globMatches dir bs afs
        if ms = [] then { st with cur := st.cur ++ [String.mk (bs ++ '*' :: afs)] }
        else { st with cur := st.cur ++ ms }
      else
        { st with cur := st.cur ++ [String.mk (bs ++ ['*'])] }
    | none => { st with cur := st.cur ++ [String.mk (c.map renderC)] }

/-- A planned pipeline: the stage argument vectors as the execution phase
sees them (after the trailing `&` was replaced by the terminator), the
per-stage argument counts `argcs` (which still count a stripped `&`), the
redirection attached to the last stage index, and the background flag. -/
structure Plan where
  cmdi : Nat
  stages : List (List String)
  argcs : List Nat
  outFile : Option Arg
  mode : Option OpenMode
  nowait : Bool
deriving DecidableEq

/-- The planning epilogue (sh.c lines 792-808): `i == 0` yields the `-1`
no-op (`none`); a trailing literal `&` sets the background flag and is cut
out of the final stage by writing the array terminator over it. -/
def planArgs (dir : List String) (args : List Arg) : Option Plan :=
  let st := args.foldl (planStep dir) initPlanSt
  let stagesPre := (st.cur :: st.stagesRev).reverse
  let total := (stagesPre.map List.length).sum + st.cmdi
  if total = 0 then none
  else
    let nowait := decide (st.cur.getLast? = some "&")
    some
      { cmdi := st.cmdi
        stages := if nowait then stagesPre.dropLast ++ [st.cur.dropLast] else stagesPre
        argcs := stagesPre.map List.length
        outFile := (st.outFiles.find? (fun e => e.1 == st.cmdi)).map (·.2)
        mode := (st.fileArgs.find? (fun e => e.1 == st.cmdi)).map (·.2)
        nowait := nowait }

/-! ## Execution phase (sh.c lines 427-443 and 810-876) -/

/-- Mutable interpreter-global state a builtin may change: the working
directory (`cd`) and the environment (`export`). -/
structure ShellState where
  cwd : String
  envv : List (String × String)
deriving DecidableEq

/-- A builtin handler: `(argc, argv) -> status`, with access to the shell
state it may mutate when invoked without an intervening fork. -/
abbrev Handler := Nat → List String → ShellState → Int × ShellState

/-- The builtin registry (`shell_commands`/`shell_pointers`): entries with
`none` as handler are completion-only names discovered on `PATH`. -/
abbrev Registry := List (String × Option Handler)

/-- `shell_find` (sh.c lines 78-85): the handler pointer of the first entry
with a matching name; a name-only entry yields no handler, exactly as the
`NULL` pointer does. -/
def shell_find (reg : Registry) (s : String) : Option Handler :=
  match reg.find? (fun e => e.1 == s) with
  | some e => e.2
  | none => none

/-- Modelled from the spec: the external-program world.  `execvp` on a name
bound here succeeds, and the process eventually delivers the associated
wait status (the program's own exit code, or a signal-derived code); a name
not bound here makes `execvp` fail.  The toaruos libc and kernel that
implement this are not under `src/`. -/
abbrev Progs := List (String × Int)

/-- Lookup in the external-program world. -/
def lookupProg (progs : Progs) (n : String) : Option Int :=
  (progs.find? (fun e => e.1 == n)).map (·.2)

/-- `runCmd` (sh.c lines 427-443), as the wait status the child delivers:
`execvp` first, then the builtin registry as fallback (run inside the
child, so its state result is discarded), else the 127 "command not found"
exit.  An empty argv is unreachable from the planner paths exercised here
(the C code would pass `NULL` to `execvp`). -/
def runCmd (progs : Progs) (reg : Registry) (args : List String)
    (st : ShellState) : Int :=
  match args with
  | [] => 127
  | a0 :: _ =>
    match lookupProg progs a0 with
    | some code => code
    | none =>
      match shell_find reg a0 with
      | some f => (f args.length args st).1
      | none => 127

/-- A forked child as the parent observes it. -/
structure Spawned where
  argv : List String
  status : Int
deriving DecidableEq

/-- The reap loop (sh.c lines 865-872): `ret_code` starts at 0 and each
successful `waitpid(-1, ...)` overwrites it, until `ECHILD`; the statuses
arrive in an OS-chosen order given here as a list. -/
def reapLoop : Int → List Int → Int
  | ret, [] => ret
  | _, s :: rest => reapLoop s rest

/-- The execution phase of `shell_exec` (sh.c lines 810-876) on a planned
pipeline.  Multi-stage (`cmdi > 0`): every stage is forked, shell state is
untouched.  Single-stage: a registered handler runs directly in the shell's
process (sh.c lines 849-851) — note this path ignores the background flag —
otherwise one child is forked.  Foreground invocations then run the reap
loop over `reapOrder`, the wait statuses of all children (pipeline members
and strays alike) in the order the OS reaps them; background invocations
skip it and keep `ret_code = 0`.  Returns (exit status, shell state, forked
children). -/
def executePlan (progs : Progs) (reg : Registry) (p : Plan) (st0 : ShellState)
    (reapOrder : List Int) : Int × ShellState × List Spawned :=
  if 0 < p.cmdi then
    let children := p.stages.map (fun sv => Spawned.mk sv (runCmd progs reg sv st0))
    if p.nowait then (0, st0, children)
    else (reapLoop 0 reapOrder, st0, children)
  else
    let sv := p.stages.headD []
    match sv.head? with
    | none => (if p.nowait then 0 else reapLoop 0 reapOrder, st0, [Spawned.mk [] 127])
    | some a0 =>
      match shell_find reg a0 with
      | some f =>
        let r := f (p.argcs.headD 0) sv st0
        (r.1, r.2, [])
      | none =>
        let child := Spawned.mk sv (runCmd progs reg sv st0)
        if p.nowait then (0, st0, [child])
        else (reapLoop 0 reapOrder, st0, [child])

/-! ## Spec-side definitions used for refinement comparisons -/

/-- Follows the spec's words for the glob filter (§4.2): keep entries not
starting with `.`, starting with the prefix and, when the suffix is
non-empty, ending with the suffix.  Compared against `globEntryKeep`, the
filter the source implements. -/
def specGlobKeep (bs afs s : List Char) : Prop :=
  ¬ ['.'] <+: s ∧ bs <+: s ∧ (afs ≠ [] → afs <:+ s)

/-- The amended glob filter: as `specGlobKeep`, except that the suffix must
match past the prefix (the remainder of the entry after the prefix ends
with the suffix). -/
def specGlobKeepAmended (bs afs s : List Char) : Prop :=
  ¬ ['.'] <+: s ∧ bs <+: s ∧ (afs ≠ [] → afs <:+ s.drop bs.length)

/-- A glob-marked word token with the given prefix and suffix text. -/
def globArg (bs afs : List Char) : Arg :=
  bs.map SChar.ch ++ SChar.star :: afs.map SChar.ch

/-! ## Concrete fixtures for witnesses and counterexamples -/

/-- A lexer environment with last status 0 and nothing else. -/
def lexEnv0 : LexEnv := ⟨0, [], []⟩

/-- A lexer environment with last status 5 and nothing else. -/
def lexEnv5 : LexEnv := ⟨5, [], []⟩

/-- A lexer environment with last status 3 and nothing else. -/
def lexEnv3 : LexEnv := ⟨3, [], []⟩

/-- A shell state fixture. -/
def st0 : ShellState := ⟨"/", []⟩

/-- A stub `cd` handler obeying the builtin contract: it mutates the
working directory and reports status 1 (as `cd` does on failure). -/
def cdStub : Handler := fun _ argv st => (1, { st with cwd := argv.getD 1 st.cwd })

/-- A registry holding only the `cd` stub. -/
def regCd : Registry := [("cd", some cdStub)]

/-- External world for the exit-status fixtures: `prog3` exits 3,
`prog0` exits 0. -/
def progsSt : Progs := [("prog3", 3), ("prog0", 0)]

/-- A two-stage foreground pipeline fixture (stages `a` and `b`). -/
def planAB : Plan := ⟨1, [["a"], ["b"]], [1, 1], none, none, false⟩

/-- External world for `planAB`: `a` exits 3, `b` exits 7. -/
def progsAB : Progs := [("a", 3), ("b", 7)]

/-- The two-stage pipeline `a | b` with the background flag set. -/
def planBgAB : Plan := ⟨1, [["a"], ["b"]], [1, 1], none, none, true⟩

/-- The single-stage plan for `cd /tmp`. -/
def planCd : Plan := ⟨0, [["cd", "/tmp"]], [2], none, none, false⟩

/-- The two-stage plan for `cd /tmp | true`. -/
def planCdPipe : Plan := ⟨1, [["cd", "/tmp"], ["truecmd"]], [2, 1], none, none, false⟩

/-- The single-stage foreground plan for `prog3`. -/
def planProg3 : Plan := ⟨0, [["prog3"]], [1], none, none, false⟩

/-! ## Helper lemmas -/

/-- The reap loop returns the status of the most recently reaped child, or
its initial value 0 when no child was ever reaped. -/
theorem reapLoop_eq_getLastD (l : List Int) (r : Int) : reapLoop r l = l.getLastD r := by
  induction l generalizing r with
  | nil => rfl
  | cons s rest ih =>
    show reapLoop s rest = (s :: rest).getLastD r
    rw [List.getLastD_cons]
    exact ih s

/-- `strstr` on a glob-marked word finds the marker and splits the word at
its first occurrence. -/
theorem splitStar_globArg (bs afs : List Char) :
    splitStar (globArg bs afs) = some (bs.map SChar.ch, afs.map SChar.ch) := by
  induction bs with
  | nil => rfl
  | cons c rest ih => simp [globArg, splitStar] at ih ⊢; rw [ih]

/-- A glob-marked word is never the `WRITE_TOKEN` sentinel. -/
theorem globArg_ne_writeArg (bs afs : List Char) : globArg bs afs ≠ writeArg := by
  cases bs <;> simp [globArg, writeArg]

/-- A glob-marked word is never the `PIPE_TOKEN` sentinel. -/
theorem globArg_ne_pipeArg (bs afs : List Char) : globArg bs afs ≠ pipeArg := by
  cases bs <;> simp [globArg, pipeArg]

/-- Rendering a list of ordinary bytes is the identity. -/
theorem map_renderC_ch (l : List Char) : (l.map SChar.ch).map renderC = l := by
  simp [List.map_map]
  exact List.map_id'' (fun c => rfl) l

/-- `['.']` is a prefix exactly when the head is `'.'`. -/
theorem dotPrefix_iff (l : List Char) : ['.'] <+: l ↔ l.head? = some '.' := by
  cases l with
  | nil => simp
  | cons x xs => simp [List.cons_prefix_cons, eq_comm]

/-- The source's guarded tail comparison (`strlen(t) >= strlen(after)` and
`strcmp` against `&t[strlen(t)-strlen(after)]`) is exactly the suffix
relation. -/
theorem dropSuffix_iff (t a : List Char) :
    ((if a.length ≤ t.length then t.drop (t.length - a.length) == a else false) = true) ↔
      a <:+ t := by
  split
  case isTrue h =>
    simp only [beq_iff_eq]
    constructor
    · intro he
      exact he ▸ List.drop_suffix _ _
    · intro hs
      exact (List.suffix_iff_eq_drop.mp hs).symm
  case isFalse h =>
    simp only [Bool.false_eq_true, false_iff]
    intro hs
    exact h hs.length_le

/-- The glob filter the source implements, characterised: it keeps an entry
iff the entry is not hidden, starts with the prefix, and the remainder of
the entry past the prefix ends with the suffix. -/
theorem globEntryKeep_iff (bs afs l : List Char) :
    globEntryKeep bs afs l = true ↔ specGlobKeepAmended bs afs l := by
  unfold globEntryKeep specGlobKeepAmended
  rw [dotPrefix_iff]
  split
  case isTrue h => simp [h]
  case isFalse h =>
    split
    case isTrue h2 =>
      obtain ⟨hne, hpf⟩ := h2
      have : ¬ bs <+: l := by
        rw [← List.isPrefixOf_iff_prefix]
        simp [hpf]
      simp [h, this]
    case isFalse h2 =>
      have hpre : bs <+: l := by
        rcases not_and_or.mp h2 with h3 | h3
        · have : bs = [] := not_not.mp h3
          simp [this]
        · rw [← List.isPrefixOf_iff_prefix]
          simpa using h3
      have ht : (if bs ≠ [] then l.drop bs.length else l) = l.drop bs.length := by
        split
        · rfl
        · next h4 =>
            have : bs = [] := not_not.mp h4
            simp [this]
      rw [ht]
      simp only [h, not_false_iff, true_and, hpre]
      split
      case isTrue h5 => rw [dropSuffix_iff]; simp [h5]
      case isFalse h5 =>
        have : afs = [] := not_not.mp h5
        simp [this]


/-! ## Claim theorems -/

/-- C5 counterexample: the claim quantifies over every foreground pipeline,
but the single-stage foreground pipeline `cd /tmp` whose argv head is a
registered builtin is dispatched directly to the handler: nothing is
spawned, nothing is reaped, and the reported status is the handler's 1 —
not the wait status 7 a reap of the pending stray child would have
delivered. -/
theorem C5_builtin_no_reap_cex :
    planCd.nowait = false
  ∧ (executePlan [] regCd planCd st0 [7]).1 = 1
  ∧ (executePlan [] regCd planCd st0 [7]).2.2 = []
  ∧ ([7] : List Int).getLastD 0 = 7
  ∧ (1 : Int) ≠ 7 := ⟨rfl, rfl, rfl, rfl, by decide⟩

/-- C5 amended: for every foreground pipeline that spawns children — every
multi-stage pipeline, and every single-stage pipeline whose argv head has
no registered handler — the parent repeatedly reaps any child (the whole
OS-ordered stream of wait statuses, pipeline members and strays alike)
until none remain, and reports the status of the most recently reaped
child; a single-stage foreground pipeline dispatched directly to a builtin
handler reaps nothing and reports the handler's status instead.
Consequently, for a multi-stage pipeline the reported status is an
order-dependent value, witnessed by the two-stage pipeline `a | b` (child
statuses 3 and 7) whose reported status is 7 under one reap order and 3
under the reversed one — not necessarily the final stage's status. -/
theorem C5_reap_last_status_spawning :
    (∀ (progs : Progs) (reg : Registry) (p : Plan) (st : ShellState) (ro : List Int),
       0 < p.cmdi → p.nowait = false →
       (executePlan progs reg p st ro).1 = ro.getLastD 0)
  ∧ (∀ (progs : Progs) (reg : Registry) (p : Plan) (st : ShellState)
       (sv : List String) (a0 : String) (ro : List Int),
       p.cmdi = 0 → p.nowait = false → p.stages = [sv] → sv.head? = some a0 →
       shell_find reg a0 = none →
       (executePlan progs reg p st ro).1 = ro.getLastD 0)
  ∧ (executePlan progsAB [] planAB st0 [3, 7]).2.2.map Spawned.status = [3, 7]
  ∧ ([3, 7] : List Int).Perm [3, 7] ∧ ([7, 3] : List Int).Perm [3, 7]
  ∧ (executePlan progsAB [] planAB st0 [3, 7]).1 = 7
  ∧ (executePlan progsAB [] planAB st0 [7, 3]).1 = 3
  ∧ (3 : Int) ≠ 7 := by
  refine ⟨?_, ?_, rfl, by decide, by decide, rfl, rfl, by decide⟩
  · intro progs reg p st ro h1 h2
    simp [executePlan, h1, h2, reapLoop_eq_getLastD]
  · intro progs reg p st sv a0 ro h0 hn hs ha hb
    simp [executePlan, h0, hn, hs, ha, hb, reapLoop_eq_getLastD]

/-- C5 witness: the reap statement applied to the concrete two-stage
pipeline fixture under the reversed reap order, and to the single-stage
external `prog3` fixture. -/
theorem C5_witness :
    (executePlan progsAB [] planAB st0 [7, 3]).1 = ([7, 3] : List Int).getLastD 0
  ∧ (executePlan progsSt [] planProg3 st0 [3]).1 = ([3] : List Int).getLastD 0 := by
  constructor
  · exact C5_reap_last_status_spawning.1 progsAB [] planAB st0 [7, 3] (by decide) rfl
  · exact C5_reap_last_status_spawning.2.1 progsSt [] planProg3 st0 ["prog3"] "prog3" [3]
      rfl rfl rfl rfl rfl


/-- C9 counterexample: the line `cd x &` plans as a background single-stage
pipeline whose argv names a registered builtin; `executePlan` then runs the
handler directly and returns its status 1, not 0, although the background
flag is set. -/
theorem C9_background_builtin_cex :
    ((tokenize lexEnv0 "cd x &".data).bind (planArgs [])).map
        (fun p => (p.nowait, (executePlan [] regCd p st0 []).1)) = some (true, 1)
  ∧ (1 : Int) ≠ 0 := ⟨rfl, by decide⟩

/-- C9 amended: a background pipeline returns exit status 0 on every path
that spawns children (multi-stage, or single-stage whose argv head has no
registered handler), the reap loop being skipped; but a single-stage
background pipeline whose argv head has a registered handler runs the
handler directly and returns the handler's status, ignoring the background
flag. -/
theorem C9_background_status (progs : Progs) (reg : Registry) (p : Plan)
    (st : ShellState) (ro : List Int) (hn : p.nowait = true) :
    (0 < p.cmdi → (executePlan progs reg p st ro).1 = 0)
  ∧ (∀ sv a0, p.cmdi = 0 → p.stages = [sv] → sv.head? = some a0 →
       shell_find reg a0 = none → (executePlan progs reg p st ro).1 = 0)
  ∧ (∀ sv a0 f, p.cmdi = 0 → p.stages = [sv] → sv.head? = some a0 →
       shell_find reg a0 = some f →
       (executePlan progs reg p st ro).1 = (f (p.argcs.headD 0) sv st).1) := by
  refine ⟨?_, ?_, ?_⟩
  · intro h1
    simp [executePlan, h1, hn]
  · intro sv a0 h0 hsv ha hb
    simp [executePlan, h0, hsv, ha, hb, hn]
  · intro sv a0 f h0 hsv ha hf
    simp [executePlan, h0, hsv, ha, hf, hn]

/-- C9 witness: the amended statement applied to the concrete background
two-stage fixture and to the background `cd` invocation. -/
theorem C9_witness :
    (executePlan progsAB [] planBgAB st0 []).1 = 0
  ∧ (executePlan [] regCd ⟨0, [["cd", "x"]], [3], none, none, true⟩ st0 []).1 =
      (cdStub 3 ["cd", "x"] st0).1 := by
  constructor
  · exact (C9_background_status progsAB [] planBgAB st0 [] rfl).1 (by decide)
  · exact (C9_background_status [] regCd ⟨0, [["cd", "x"]], [3], none, none, true⟩ st0 [] rfl).2.2
      ["cd", "x"] "cd" cdStub rfl rfl rfl rfl


/-- C1: for a planned single-stage pipeline whose argv head is registered
with a handler, `executePlan` runs the handler directly in the shell's own
process — no child is spawned, the handler's return value is the exit
status, and the handler's state result becomes the shell state (the only
persistent-mutation path); for a single-stage pipeline without a handler
and for every multi-stage pipeline the shell state is returned unchanged,
and in the multi-stage case every stage — whatever its argv head names —
becomes a forked child. -/
theorem C1_builtin_dispatch (progs : Progs) (reg : Registry) (p : Plan)
    (st : ShellState) (ro : List Int) :
    (∀ sv a0 f, p.cmdi = 0 → p.stages = [sv] → sv.head? = some a0 →
       shell_find reg a0 = some f →
       executePlan progs reg p st ro =
         ((f (p.argcs.headD 0) sv st).1, (f (p.argcs.headD 0) sv st).2, []))
  ∧ (∀ sv a0, p.cmdi = 0 → p.stages = [sv] → sv.head? = some a0 →
       shell_find reg a0 = none → (executePlan progs reg p st ro).2.1 = st)
  ∧ (0 < p.cmdi →
       (executePlan progs reg p st ro).2.1 = st ∧
       ((executePlan progs reg p st ro).2.2).map Spawned.argv = p.stages) := by
  refine ⟨?_, ?_, ?_⟩
  · intro sv a0 f h0 hsv ha hf
    simp [executePlan, h0, hsv, ha, hf]
  · intro sv a0 h0 hsv ha hb
    cases hnw : p.nowait <;> simp [executePlan, h0, hsv, ha, hb, hnw]
  · intro h1
    have hmap : (p.stages.map (fun sv => Spawned.mk sv (runCmd progs reg sv st))).map
        Spawned.argv = p.stages := by
      rw [List.map_map]
      exact List.map_id'' (fun _ => rfl) p.stages
    cases hnw : p.nowait <;> simp [executePlan, h1, hnw, hmap]

/-- C1 witness: the dispatch statement applied to the single-stage `cd`
plan (direct handler invocation, with its state mutation) and to the
two-stage `cd | truecmd` plan (state unchanged, one child per stage). -/
theorem C1_witness :
    executePlan [] regCd planCd st0 [] =
      ((cdStub 2 ["cd", "/tmp"] st0).1, (cdStub 2 ["cd", "/tmp"] st0).2, [])
  ∧ (executePlan [] regCd planCdPipe st0 []).2.1 = st0
  ∧ ((executePlan [] regCd planCdPipe st0 []).2.2).map Spawned.argv = planCdPipe.stages := by
  refine ⟨?_, ?_, ?_⟩
  · exact (C1_builtin_dispatch [] regCd planCd st0 []).1 ["cd", "/tmp"] "cd" cdStub rfl rfl rfl rfl
  · exact ((C1_builtin_dispatch [] regCd planCdPipe st0 []).2.2 (by decide)).1
  · exact ((C1_builtin_dispatch [] regCd planCdPipe st0 []).2.2 (by decide)).2

/-- C2: for a single-stage foreground pipeline whose argv head is not a
registered handler, `executePlan` forks one child and reports that child's
wait status: the program's own exit code when `execvp` finds it (so an
external program exiting 3 reports 3, one exiting 0 reports 0, and a
signal-terminated program reports its signal-derived status, all delivered
through the modelled `waitpid`), and 127 when the command is not found;
with last status 3, the next line's `$?` lexes to the word `3`. -/
theorem C2_exit_status (progs : Progs) (reg : Registry) (p : Plan)
    (st : ShellState) (sv : List String) (a0 : String) (ro : List Int)
    (h0 : p.cmdi = 0) (hn : p.nowait = false) (hs : p.stages = [sv])
    (ha : sv.head? = some a0) (hb : shell_find reg a0 = none)
    (hro : ro.Perm [runCmd progs reg sv st]) :
    (executePlan progs reg p st ro).1 = runCmd progs reg sv st
  ∧ (∀ code : Int, lookupProg progs a0 = some code → runCmd progs reg sv st = code)
  ∧ (lookupProg progs a0 = none → runCmd progs reg sv st = 127)
  ∧ (∀ E : LexEnv, E.lastRet = 3 → tokenize E ['$', '?'] = some [[SChar.ch '3']]) := by
  have hro2 : ro = [runCmd progs reg sv st] := List.perm_singleton.mp hro
  refine ⟨?_, ?_, ?_, ?_⟩
  · subst hro2
    simp [executePlan, h0, hs, ha, hb, hn, reapLoop]
  · intro code hcode
    cases sv with
    | nil => simp at ha
    | cons b tl =>
      simp at ha
      subst ha
      simp [runCmd, hcode]
  · intro hnone
    cases sv with
    | nil => simp at ha
    | cons b tl =>
      simp at ha
      subst ha
      simp [runCmd, hnone, hb]
  · intro E hE
    obtain ⟨lr, sa, ev⟩ := E
    simp only at hE
    subst hE
    rfl

/-- C2 witness: the propagation statement applied to the `prog3` fixture,
whose process exits with code 3. -/
theorem C2_witness : (executePlan progsSt [] planProg3 st0 [3]).1 = 3 := by
  have h := C2_exit_status progsSt [] planProg3 st0 ["prog3"] "prog3" [3]
    rfl rfl rfl rfl rfl (by decide)
  exact (h.1).trans (h.2.1 3 rfl)


/-- C3: evaluation at the failing input `echo > f g`.  Because the planner
never resets `next_is_file`, every token after the write marker is consumed
as a redirection-path candidate (the last one wins) and none returns to
argv: the plan keeps argv `[echo]` with path `g`, where the claim requires
argv `[echo, g]` with path `f`.  Even a pipe operator is swallowed, as the
second conjunct shows for `echo > f | wc`. -/
theorem C3_redirect_swallows_rest :
    planArgs [] [wArg "echo", writeArg, wArg "f", wArg "g"] =
      some ⟨0, [["echo"]], [1], some (wArg "g"), some OpenMode.trunc, false⟩
  ∧ planArgs [] [wArg "echo", writeArg, wArg "f", pipeArg, wArg "wc"] =
      some ⟨0, [["echo"]], [1], some (wArg "wc"), some OpenMode.trunc, false⟩ :=
  ⟨rfl, rfl⟩

/-- C4: evaluation at the failing input `a/*b`.  The directory-qualified
glob branch restores `*` but, lacking the `memmove` of the no-match branch,
truncates the word at the terminator written over the marker: the token
passes through as `a/*`, not as the unchanged `a/*b` the claim requires. -/
theorem C4_dirglob_drops_suffix :
    planArgs ["x"] [globArg "a/".data "b".data] =
      some ⟨0, [["a/*"]], [1], none, none, false⟩
  ∧ String.mk ("a/".data ++ '*' :: "b".data) = "a/*b"
  ∧ "a/*" ≠ "a/*b" := ⟨rfl, rfl, by decide⟩

/-- C6: evaluation at the failing input `$?a` with last status 5.
`variable_char` accepts `?`, and the `coll == 0` stop-guard is dead (it is
tested after `coll++`), so the collection loop reads the name `?a`, which
resolves to nothing: the line lexes to no words at all, where the claim
requires `$?` to stop after `?` and yield the word `5a`.  A bare `$?` still
works because nothing follows the `?`. -/
theorem C6_dollar_name_collection :
    tokenize lexEnv5 "$?a".data = some []
  ∧ tokenize lexEnv5 "$?".data = some [[SChar.ch '5']]
  ∧ variable_char '?' = true
  ∧ collect_bare "?a".data [] 0 = ("?a".data, []) :=
  ⟨rfl, rfl, rfl, rfl⟩


/-- C8: an unquoted, unescaped `>` lexes to the write marker, and planning
records truncate-create mode for it; a second write marker arriving while
the first is still pending (before any path token) toggles the pending
record to append-create mode.  Hence for every command word `w` and path
token `pa`, `w > pa` plans with mode truncate-create and `w >> pa` with
mode append-create, both with `pa` as the redirection path. -/
theorem C8_append_toggle (dir : List String) (w pa : Arg)
    (hw1 : splitStar w = none) (hw2 : w ≠ writeArg) (hw3 : w ≠ pipeArg)
    (hw4 : String.mk (w.map renderC) ≠ "&") (hp : pa ≠ writeArg) :
    planArgs dir [w, writeArg, pa] =
      some ⟨0, [[String.mk (w.map renderC)]], [1], some pa, some OpenMode.trunc, false⟩
  ∧ planArgs dir [w, writeArg, writeArg, pa] =
      some ⟨0, [[String.mk (w.map renderC)]], [1], some pa, some OpenMode.append, false⟩
  ∧ tokenize lexEnv0 "c > p".data = some [[SChar.ch 'c'], writeArg, [SChar.ch 'p']]
  ∧ tokenize lexEnv0 "c >> p".data =
      some [[SChar.ch 'c'], writeArg, writeArg, [SChar.ch 'p']] := by
  refine ⟨?_, ?_, rfl, rfl⟩
  · simp [planArgs, planStep, hw1, hw2, hw3, hw4, hp, initPlanSt]
  · simp [planArgs, planStep, hw1, hw2, hw3, hw4, hp, initPlanSt]

/-- C8 witness: the toggle statement applied to the concrete command word
`cmd` and path `p`. -/
theorem C8_witness :
    planArgs [] [wArg "cmd", writeArg, wArg "p"] =
      some ⟨0, [[String.mk ((wArg "cmd").map renderC)]], [1], some (wArg "p"),
            some OpenMode.trunc, false⟩
  ∧ planArgs [] [wArg "cmd", writeArg, writeArg, wArg "p"] =
      some ⟨0, [[String.mk ((wArg "cmd").map renderC)]], [1], some (wArg "p"),
            some OpenMode.append, false⟩ :=
  ⟨(C8_append_toggle [] (wArg "cmd") (wArg "p") rfl (by decide) (by decide)
      (by decide) (by decide)).1,
   (C8_append_toggle [] (wArg "cmd") (wArg "p") rfl (by decide) (by decide)
      (by decide) (by decide)).2.1⟩


/-- C7 counterexample: the entry `aba` satisfies the claim's filter for the
glob `ab*ba` (not hidden, starts with `ab`, ends with `ba`), yet the
planner's expansion keeps nothing — the source requires the suffix to match
past the prefix — and falls back to the literal word `ab*ba`. -/
theorem C7_overlap_cex :
    specGlobKeep "ab".data "ba".data "aba".data
  ∧ globMatches ["aba"] "ab".data "ba".data = []
  ∧ planArgs ["aba"] [globArg "ab".data "ba".data] =
      some ⟨0, [["ab*ba"]], [1], none, none, false⟩ := by
  refine ⟨⟨by decide, by decide, fun _ => by decide⟩, rfl, rfl⟩

/-- C7 amended: for a wildcard word whose prefix contains no `/`, expansion
produces exactly one word per directory entry that does not start with `.`,
starts with the prefix and — when the suffix is non-empty — whose remainder
past the prefix ends with the suffix; with zero matches the literal word
is restored.  On the spec's example directory, `*.txt` expands to exactly
`a.txt` and `b.txt`, excluding `.hidden`. -/
theorem C7_glob_filter (dir : List String) (bs afs : List Char) (st : PlanSt)
    (h0 : st.nextIsFile = 0) (hb : bs = [] ∨ bs.contains '/' = false) :
    (planStep dir st (globArg bs afs)).cur =
      st.cur ++ (if globMatches dir bs afs = []
                 then [String.mk (bs ++ '*' :: afs)] else globMatches dir bs afs)
  ∧ (∀ s : String, globEntryKeep bs afs s.data = true ↔ specGlobKeepAmended bs afs s.data)
  ∧ planArgs ["a.txt", "b.txt", ".hidden"] [globArg [] ".txt".data] =
      some ⟨0, [["a.txt", "b.txt"]], [2], none, none, false⟩ := by
  refine ⟨?_, fun s => globEntryKeep_iff bs afs s.data, rfl⟩
  have hsp := splitStar_globArg bs afs
  have hne1 := globArg_ne_writeArg bs afs
  have hne2 := globArg_ne_pipeArg bs afs
  simp only [planStep, h0]
  rw [if_neg (by simp), if_neg hne1, if_neg hne2, hsp]
  simp only [map_renderC_ch]
  rw [if_pos hb]
  split <;> rfl

/-- C7 witness: the amended filter applied to the spec's example directory
with prefix empty and suffix `.txt`. -/
theorem C7_witness :
    (planStep ["a.txt", "b.txt", ".hidden"] initPlanSt (globArg [] ".txt".data)).cur =
      initPlanSt.cur ++
        (if globMatches ["a.txt", "b.txt", ".hidden"] [] ".txt".data = []
         then [String.mk ([] ++ '*' :: ".txt".data)]
         else globMatches ["a.txt", "b.txt", ".hidden"] [] ".txt".data) :=
  (C7_glob_filter ["a.txt", "b.txt", ".hidden"] [] ".txt".data initPlanSt rfl
    (Or.inl rfl)).1


/-- C10 counterexample: lexing `\"a"` in the Normal state.  The claim says
`\"` yields the character `"` with the backslash removed; instead the
backslash does not protect the quote — the quote enters the DoubleQuoted
state with the escape flag still pending, which then attaches a backslash
to `a` — and the line lexes to the single word `\a`, which contains a
backslash and no `"`. -/
theorem C10_escape_quote_cex :
    tokenize lexEnv0 ['\\', '"', 'a', '"'] = some [[SChar.ch '\\', SChar.ch 'a']]
  ∧ ([[SChar.ch '\\', SChar.ch 'a']] : List Arg) ≠ [[SChar.ch '"', SChar.ch 'a']] :=
  ⟨rfl, by decide⟩

/-- C10 amended: a backslash (outside single quotes, not itself escaped)
sets the escape flag; with the flag pending, in the Normal state the
characters `$`, `*`, space, `|`, `>`, `#` are added plainly (backslash
removed) and a character with no special meaning is added together with the
backslash, but `"` and `'` are not escaped — they toggle the quote state
and leave the escape flag pending for the following character; in the
DoubleQuoted state the full list `$`, `'`, `"`, `*`, space, `|`, `>`, `#`
is added plainly and an ordinary character keeps its backslash. -/
theorem C10_escape_rules (E : LexEnv) (x : Char) (rest : List Char) (st : LexSt) :
    (st.quoted ≠ some '\'' → st.backtick = false →
       lexStep E '\\' rest st = Sum.inl (rest, { st with backtick := true }))
  ∧ (st.quoted = none → x ∈ ['$', '*', ' ', '|', '>', '#'] →
       lexStep E x rest { st with backtick := true } =
         Sum.inl (rest, { st with backtick := false, buf := st.buf ++ [SChar.ch x] }))
  ∧ (st.quoted = none → x ∉ ['$', '"', '\'', '*', '\\', ' ', '\n', '|', '>', '#'] →
       lexStep E x rest { st with backtick := true } =
         Sum.inl (rest, { st with
                          backtick := false
                          buf := st.buf ++ [SChar.ch '\\', SChar.ch x] }))
  ∧ (st.quoted = none →
       lexStep E '"' rest { st with backtick := true } =
         Sum.inl (rest, { st with backtick := true, quoted := some '"' }) ∧
       lexStep E '\'' rest { st with backtick := true } =
         Sum.inl (rest, { st with backtick := true, quoted := some '\'' }))
  ∧ (st.quoted = some '"' → x ∈ ['$', '\'', '"', '*', ' ', '|', '>', '#'] →
       lexStep E x rest { st with backtick := true } =
         Sum.inl (rest, { st with backtick := false, buf := st.buf ++ [SChar.ch x] }))
  ∧ (st.quoted = some '"' → x ∉ ['$', '"', '\'', '*', '\\', ' ', '\n', '|', '>', '#'] →
       lexStep E x rest { st with backtick := true } =
         Sum.inl (rest, { st with
                          backtick := false
                          buf := st.buf ++ [SChar.ch '\\', SChar.ch x] })) := by
  refine ⟨?_, ?_, ?_, ?_, ?_, ?_⟩
  · intro hq hb
    simp [lexStep, hq, hb]
  · intro hq hx
    fin_cases hx <;> simp [lexStep, justAddC, hq]
  · intro hq hx
    simp only [List.mem_cons, List.not_mem_nil, or_false, not_or] at hx
    obtain ⟨h1, h2, h3, h4, h5, h6, h7, h8, h9, h10⟩ := hx
    simp [lexStep, justAddC, hq, h1, h2, h3, h4, h5, h6, h7, h8, h9, h10]
  · intro hq
    constructor <;> simp [lexStep, hq]
  · intro hq hx
    fin_cases hx <;> simp [lexStep, justAddC, hq]
  · intro hq hx
    simp only [List.mem_cons, List.not_mem_nil, or_false, not_or] at hx
    obtain ⟨h1, h2, h3, h4, h5, h6, h7, h8, h9, h10⟩ := hx
    simp [lexStep, justAddC, hq, h1, h2, h3, h4, h5, h6, h7, h8, h9, h10]

/-- C10 witness: the escape rules applied in the Normal state to the
escaped special `$`, the ordinary character `a`, and the unprotected quote
`"`. -/
theorem C10_witness :
    lexStep lexEnv0 '$' ['x'] { initLexSt with backtick := true } =
      Sum.inl (['x'], { initLexSt with
                        backtick := false
                        buf := initLexSt.buf ++ [SChar.ch '$'] })
  ∧ lexStep lexEnv0 'a' [] { initLexSt with backtick := true } =
      Sum.inl ([], { initLexSt with
                     backtick := false
                     buf := initLexSt.buf ++ [SChar.ch '\\', SChar.ch 'a'] })
  ∧ lexStep lexEnv0 '"' [] { initLexSt with backtick := true } =
      Sum.inl ([], { initLexSt with backtick := true, quoted := some '"' }) := by
  refine ⟨?_, ?_, ?_⟩
  · exact (C10_escape_rules lexEnv0 '$' ['x'] initLexSt).2.1 rfl (by decide)
  · exact (C10_escape_rules lexEnv0 'a' [] initLexSt).2.2.1 rfl (by decide)
  · exact ((C10_escape_rules lexEnv0 '"' [] initLexSt).2.2.2.1 rfl).1

end Esh
